import Mathlib

/-!
Shallow embedding of `src/partsViewer.js` (NX-01v1/TESTeR).

The script has three cores, all embedded here as pure Lean functions:

* `parseBuildFromUrl` (source lines 4-24): reads the `build` query parameter
  of a URL, splits it on `-` and converts each segment with the JavaScript
  `Number` conversion, throwing when a segment converts to `NaN`.
  The URL object itself is opaque to the logic (only
  `searchParams.get` is used), so the embedding takes the extracted
  parameter as an `Option String` (`none` = parameter missing; a
  structurally malformed URL throws before this logic runs and returns no
  sequence at all, so it is outside this model).
* `parseDocxPartsData` (source lines 27-74): parses CRLF-separated,
  comma-delimited catalog text into part records.
* the aggregation loop of `displayBuild` (source lines 153-196), embedded
  as `resolveAndAggregate`: DOM writes are abstracted into the ordered
  list of selected records, the two running totals, the `partsFound`
  flag, and the list of out-of-range warnings.

JavaScript numbers are modelled exactly as `JSNum`: `nan`, signed
infinities, or a rational (`ℚ`) value.  The rational idealises the IEEE
double (no rounding / overflow), which no claim below depends on.
Console warnings and thrown errors carry interpolated data; they are
modelled as structured values (`ParseWarn`, `BuildErr`, `DocxErr`)
carrying exactly the data the source interpolates into its messages.
String splitting / trimming is re-implemented structurally over
`List Char` so that every definition evaluates inside the kernel; the
semantics match `String.prototype.split` with a one- or two-character
separator and `String.prototype.trim`.
-/

/-- JavaScript number: NaN, a signed infinity, or a (finite) value.
The finite payload is an exact rational. -/
inductive JSNum where
  | nan : JSNum
  | inf (neg : Bool) : JSNum
  | fin (q : ℚ) : JSNum
deriving DecidableEq, Repr

/-- JavaScript value as stored in a part record field: a string, a number,
or `undefined`. -/
inductive JSValue where
  | str (s : String) : JSValue
  | num (n : JSNum) : JSValue
  | undef : JSValue
deriving DecidableEq, Repr

/-- The characters treated as whitespace by JavaScript trimming and by
`Number` / `parseFloat` (the WhiteSpace and LineTerminator productions;
a representative subset of the Unicode space separators). -/
def jsWhitespaceChars : List Char :=
  [' ', '\t', '\n', '\r', '\x0b', '\x0c', '\xa0', '\u2028', '\u2029', '\ufeff']

def isJsWhitespace (c : Char) : Bool :=
  jsWhitespaceChars.contains c

/-- Strip leading and trailing JavaScript whitespace from a character list
(the semantics of `String.prototype.trim`). -/
def jsTrim (cs : List Char) : List Char :=
  ((cs.dropWhile isJsWhitespace).reverse.dropWhile isJsWhitespace).reverse

/-- `v.trim()` on strings. -/
def jsTrimString (s : String) : String :=
  String.mk (jsTrim s.toList)

/-- Split a character list at every occurrence of the separator character:
the semantics of `String.prototype.split` with a one-character separator
(always returns at least one piece; adjacent separators give empty
pieces). -/
def splitOnChar (sep : Char) : List Char → List (List Char)
  | [] => [[]]
  | c :: rest =>
    if c = sep then [] :: splitOnChar sep rest
    else
      match splitOnChar sep rest with
      | [] => [[c]]
      | s :: ss => (c :: s) :: ss

/-- Split a character list at every occurrence of the two-character
terminator CR LF: the semantics of `content.split(String.mk [CR, LF])`
in the source. -/
def splitCRLF : List Char → List (List Char)
  | [] => [[]]
  | '\r' :: '\n' :: rest => [] :: splitCRLF rest
  | c :: rest =>
    match splitCRLF rest with
    | [] => [[c]]
    | s :: ss => (c :: s) :: ss

/-- Numeric value of a list of ASCII decimal digits, most significant
first. -/
def digitsToNat (cs : List Char) : ℕ :=
  cs.foldl (fun a c => 10 * a + (c.toNat - 48)) 0

/-- Numeric value of a digit character in bases up to 16 (`0-9`, `a-f`,
`A-F`). -/
def radixDigitVal (c : Char) : ℕ :=
  if c.isDigit then c.toNat - 48
  else if 'a' ≤ c ∧ c ≤ 'f' then c.toNat - 87
  else c.toNat - 55

/-- Numeric value of a digit list in the given radix. -/
def radixVal (radix : ℕ) (cs : List Char) : ℕ :=
  cs.foldl (fun a c => radix * a + radixDigitVal c) 0

def isHexDigitB (c : Char) : Bool :=
  c.isDigit || ('a' ≤ c && c ≤ 'f') || ('A' ≤ c && c ≤ 'F')

def isOctDigitB (c : Char) : Bool :=
  '0' ≤ c && c ≤ '7'

def isBinDigitB (c : Char) : Bool :=
  c = '0' || c = '1'

/-- Recognise a `NonDecimalIntegerLiteral` body: `0x…`/`0o…`/`0b…` with at
least one digit of the given class; returns the digit list on success. -/
def isRadixLiteral (cs : List Char) (lo hi : Char) (dig : Char → Bool) :
    Option (List Char) :=
  match cs with
  | c0 :: c :: rest =>
    if c0 = '0' ∧ (c = lo ∨ c = hi) ∧ rest ≠ [] ∧ rest.all dig then some rest
    else none
  | _ => none

/-- Split a character list at the first `e`/`E`, returning the mantissa
characters and (when an `e`/`E` was found) the characters after it. -/
def splitAtExpChar : List Char → List Char × Option (List Char)
  | [] => ([], none)
  | c :: rest =>
    if c = 'e' ∨ c = 'E' then ([], some rest)
    else
      match splitAtExpChar rest with
      | (m, e) => (c :: m, e)

/-- Exact rational value `m * 10 ^ z / 10 ^ k` of a decimal literal whose
digits (integer and fraction parts concatenated) read as `m`, whose
fraction part has `k` digits, and whose exponent is `z`.  Built with a
single `mkRat` so that it evaluates by kernel reduction. -/
def decValue (m k : ℕ) (z : ℤ) : ℚ :=
  match z with
  | .ofNat n => mkRat (m * 10 ^ n) (10 ^ k)
  | .negSucc n => mkRat m (10 ^ k * 10 ^ (n + 1))

/-- Parse the mantissa of a decimal literal (`DecimalDigits . DecimalDigits?`
or `. DecimalDigits` or `DecimalDigits`), requiring the whole input to
match; returns the concatenated digits value and the fraction length. -/
def parseDecMantissa (cs : List Char) : Option (ℕ × ℕ) :=
  match splitOnChar '.' cs with
  | [ip] =>
    if ip ≠ [] ∧ ip.all Char.isDigit then some (digitsToNat ip, 0) else none
  | [ip, fp] =>
    if ip.all Char.isDigit ∧ fp.all Char.isDigit ∧ (ip ≠ [] ∨ fp ≠ []) then
      some (digitsToNat (ip ++ fp), fp.length)
    else none
  | _ => none

/-- Parse an exponent body (`SignedInteger`), requiring the whole input to
match. -/
def parseExponent (cs : List Char) : Option ℤ :=
  match cs with
  | '+' :: ds =>
    if ds ≠ [] ∧ ds.all Char.isDigit then some ((digitsToNat ds : ℤ)) else none
  | '-' :: ds =>
    if ds ≠ [] ∧ ds.all Char.isDigit then some (-(digitsToNat ds : ℤ)) else none
  | ds =>
    if ds ≠ [] ∧ ds.all Char.isDigit then some ((digitsToNat ds : ℤ)) else none

/-- Parse a `StrUnsignedDecimalLiteral` (`Infinity`, or mantissa with
optional exponent), requiring the whole input to match. -/
def parseStrUnsignedDecimal (cs : List Char) : Option JSNum :=
  if cs = "Infinity".toList then some (.inf false)
  else
    match splitAtExpChar cs with
    | (mcs, e) =>
      match parseDecMantissa mcs with
      | none => none
      | some (m, k) =>
        match e with
        | none => some (.fin (decValue m k 0))
        | some ecs =>
          match parseExponent ecs with
          | none => none
          | some z => some (.fin (decValue m k z))

/-- Negate a JavaScript number (used for a leading minus sign). -/
def applySign (neg : Bool) : JSNum → JSNum
  | .nan => .nan
  | .inf b => .inf (neg != b)
  | .fin q => .fin (if neg then -q else q)

/-- Parse a `StrDecimalLiteral` (optional sign, then unsigned decimal),
requiring the whole input to match; failure is `NaN`. -/
def parseSignedDecimal (cs : List Char) : JSNum :=
  match cs with
  | c :: rest =>
    if c = '+' then (parseStrUnsignedDecimal rest).getD .nan
    else if c = '-' then (applySign true <$> parseStrUnsignedDecimal rest).getD .nan
    else (parseStrUnsignedDecimal (c :: rest)).getD .nan
  | [] => (parseStrUnsignedDecimal []).getD .nan

/-- Parse a `StrNumericLiteral`: a non-decimal integer literal
(hex/octal/binary, no sign) or a signed decimal literal. -/
def parseStrNumericLiteral (cs : List Char) : JSNum :=
  match isRadixLiteral cs 'x' 'X' isHexDigitB with
  | some ds => .fin ((radixVal 16 ds : ℕ))
  | none =>
    match isRadixLiteral cs 'o' 'O' isOctDigitB with
    | some ds => .fin ((radixVal 8 ds : ℕ))
    | none =>
      match isRadixLiteral cs 'b' 'B' isBinDigitB with
      | some ds => .fin ((radixVal 2 ds : ℕ))
      | none => parseSignedDecimal cs

/-- The JavaScript `Number` conversion applied to the characters of a
string: trim whitespace, the empty remainder is `0`, otherwise the whole
remainder must be a numeric literal (else `NaN`). -/
def jsCharsToNumber (cs : List Char) : JSNum :=
  let t := jsTrim cs
  if t = [] then .fin 0 else parseStrNumericLiteral t

/-- `Number(s)` for a string `s`. -/
def jsStringToNumber (s : String) : JSNum :=
  jsCharsToNumber s.toList

/-- The digits-only prefix value step of `parseFloat`: exponent part, which
only counts when at least one digit follows `e`/`E` (optional sign). -/
def parseFloatExpDigits (ds : List Char) (neg : Bool) : ℤ :=
  let e1 := ds.takeWhile Char.isDigit
  if e1 = [] then 0
  else if neg then -(digitsToNat e1 : ℤ) else (digitsToNat e1 : ℤ)

/-- Exponent handling of `parseFloat` on the characters remaining after the
mantissa: longest valid `ExponentPart` prefix, contributing `0` when
absent or incomplete. -/
def parseFloatExp (cs : List Char) : ℤ :=
  match cs with
  | 'e' :: '+' :: ds => parseFloatExpDigits ds false
  | 'e' :: '-' :: ds => parseFloatExpDigits ds true
  | 'e' :: ds => parseFloatExpDigits ds false
  | 'E' :: '+' :: ds => parseFloatExpDigits ds false
  | 'E' :: '-' :: ds => parseFloatExpDigits ds true
  | 'E' :: ds => parseFloatExpDigits ds false
  | _ => 0

/-- `parseFloat` after the optional sign: longest prefix that is a
`StrUnsignedDecimalLiteral` (`Infinity`, or digits with optional fraction
and exponent); `NaN` when no such prefix exists. -/
def parseFloatUnsigned (cs : List Char) : JSNum :=
  if "Infinity".toList.isPrefixOf cs then .inf false
  else
    let d1 := cs.takeWhile Char.isDigit
    let r1 := cs.dropWhile Char.isDigit
    let d2 :=
      match r1 with
      | '.' :: t => t.takeWhile Char.isDigit
      | _ => []
    let r2 :=
      match r1 with
      | '.' :: t => t.dropWhile Char.isDigit
      | _ => r1
    if d1 = [] ∧ d2 = [] then .nan
    else .fin (decValue (digitsToNat (d1 ++ d2)) d2.length (parseFloatExp r2))

/-- The JavaScript `parseFloat` conversion: strip leading whitespace,
consume an optional sign, then the longest decimal-literal prefix. -/
def parseFloat (s : String) : JSNum :=
  match s.toList.dropWhile isJsWhitespace with
  | '+' :: rest => parseFloatUnsigned rest
  | '-' :: rest => applySign true (parseFloatUnsigned rest)
  | cs => parseFloatUnsigned cs

/-- A part record: a JavaScript object as built by the parser, modelled as
its ordered list of (property, value) pairs. -/
abbrev PartRecord := List (String × JSValue)

/-- Property assignment `r[k] = v` on an object: overwrite the property in
place when it exists, otherwise append it.  Records are built from the
empty object by successive assignments, so property keys are unique and
the first occurrence is the only one. -/
def setField : PartRecord → String → JSValue → PartRecord
  | [], k, v => [(k, v)]
  | p :: r, k, v => if p.1 = k then (k, v) :: r else p :: setField r k v

/-- Property read `r[k]` on an object: `none` when the property is absent
(JavaScript `undefined` through absence, as opposed to a stored
`JSValue.undef`). -/
def getField : PartRecord → String → Option JSValue
  | [], _ => none
  | p :: r, k => if p.1 = k then some p.2 else getField r k

/-- A console warning of the catalog parser, carrying exactly the data the
source interpolates into the message: `badRow i` is the skip warning for
loop row `i` (the message shows `i + 1`); `badNumber i h v` is the
numeric-parse warning for row `i`, header `h` and field text `v`. -/
inductive ParseWarn where
  | badRow (rowNo : ℕ) : ParseWarn
  | badNumber (rowNo : ℕ) (header : String) (val : String) : ParseWarn
deriving DecidableEq, Repr

/-- Errors thrown by the catalog parser (source lines 30, 35, 71): no data
lines, no header fields after dropping the row-number column, or data
lines present but no row parsed. -/
inductive DocxErr where
  | emptyInput : DocxErr
  | noHeader : DocxErr
  | noValidRows : DocxErr
deriving DecidableEq, Repr

/-- One `ENLoad`/`Weight` field (source lines 57-63): `parseFloat` the
text; `NaN` from non-empty text warns and stores `undefined`; empty text
stores `undefined` silently; otherwise the parsed number is stored.
Returns the stored value and whether the warning fired. -/
def numericFieldValue (val : String) : JSValue × Bool :=
  let pf := parseFloat val
  if pf = .nan ∧ val ≠ "" then (.undef, true)
  else if val = "" then (.undef, false)
  else (.num pf, false)

/-- The `headers.forEach` body of the parser (source lines 54-67): fold
over the remaining headers, assigning each field of the record under
construction; `index` tracks the header position. -/
def processRowAux (values : List String) (valueIndex rowNo : ℕ) :
    List String → ℕ → PartRecord × List ParseWarn → PartRecord × List ParseWarn
  | [], _, acc => acc
  | header :: hs, index, acc =>
    let val := values.getD (valueIndex + index) ""
    let acc2 :=
      if header = "ENLoad" ∨ header = "Weight" then
        let nv := numericFieldValue val
        (setField acc.1 header nv.1,
         if nv.2 then acc.2 ++ [ParseWarn.badNumber rowNo header val] else acc.2)
      else (setField acc.1 header (JSValue.str val), acc.2)
    processRowAux values valueIndex rowNo hs (index + 1) acc2

/-- `lines[i].split(&comma;).map(v => v.trim())` of the source: the trimmed
comma-separated fields of a data line. -/
def rowValues (line : String) : List String :=
  (splitOnChar ',' line.toList).map (fun cs => String.mk (jsTrim cs))

/-- The data-row loop of the parser (source lines 39-69), starting at loop
index `i`: a row with fewer value fields than `valueIndex + headers.length`
is skipped with a warning; otherwise the row is processed into a record. -/
def processRows (headers : List String) (valueIndex : ℕ) :
    ℕ → List String → List PartRecord × List ParseWarn
  | _, [] => ([], [])
  | i, line :: rest =>
    let values := rowValues line
    let tail := processRows headers valueIndex (i + 1) rest
    if values.length < valueIndex + headers.length then
      (tail.1, ParseWarn.badRow i :: tail.2)
    else
      let rp := processRowAux values valueIndex i headers 0 ([], [])
      (rp.1 :: tail.1, rp.2 ++ tail.2)

/-- `parseDocxPartsData` (source lines 27-74): split the content on CRLF,
drop blank lines, read the header line (dropping every field equal to
`No.` and skipping the first value column when the raw header line starts
with `No.`), then process the data rows.  Returns the records together
with the emitted warnings, or the thrown error. -/
def parseDocxPartsData (docxContent : String) :
    Except DocxErr (List PartRecord × List ParseWarn) :=
  let lines := ((splitCRLF docxContent.toList).map String.mk).filter
    (fun l => jsTrimString l ≠ "")
  match lines with
  | [] => .error .emptyInput
  | line0 :: rest =>
    let headers := ((splitOnChar ',' line0.toList).map
      (fun cs => String.mk (jsTrim cs))).filter (fun h => h ≠ "No.")
    if headers = [] then .error .noHeader
    else
      let valueIndex := if "No.".toList.isPrefixOf line0.toList then 1 else 0
      let pw := processRows headers valueIndex 1 rest
      if pw.1 = [] ∧ rest ≠ [] then .error .noValidRows
      else .ok pw

/-- The error thrown by `parseBuildFromUrl` (source lines 12, 21): a build
segment that is not numeric; the payload is the offending segment that
the source interpolates into both the inner and the rethrown message. -/
inductive BuildErr where
  | invalidIndex (segment : String) : BuildErr
deriving DecidableEq, Repr

/-- The `buildParam.split(hyphen).map(...)` of the source (lines 9-15):
convert each segment with `Number`, throwing on the first segment that
converts to `NaN`. -/
def segmentsToNumbers : List (List Char) → Except BuildErr (List JSNum)
  | [] => .ok []
  | s :: rest =>
    let n := jsCharsToNumber s
    if n = .nan then .error (.invalidIndex (String.mk s))
    else (segmentsToNumbers rest).map (fun l => n :: l)

/-- `parseBuildFromUrl` (source lines 4-24) on the extracted `build` query
parameter: `none` and the empty string are falsy and yield `ok none`
(the source returns `null`); otherwise the parameter is split on `-` and
converted segmentwise.  The rethrow in the catch block (line 21) keeps
the inner error data. -/
def parseBuildFromUrl (buildParam : Option String) :
    Except BuildErr (Option (List JSNum)) :=
  match buildParam with
  | none => .ok none
  | some bp =>
    if bp = "" then .ok none
    else (segmentsToNumbers (splitOnChar '-' bp.toList)).map some

/-- JavaScript `index >= 0` on a number (`NaN` compares false). -/
def jsGeZero : JSNum → Bool
  | .nan => false
  | .inf b => !b
  | .fin q => decide (0 ≤ q)

/-- JavaScript `index < len` for a natural `len` (`NaN` compares false). -/
def jsLtLen : JSNum → ℕ → Bool
  | .nan, _ => false
  | .inf b, _ => b
  | .fin q, len => decide (q < (len : ℚ))

/-- JavaScript array element read `partsData[index]` for a numeric index:
an element only for an integral index within bounds, `undefined`
otherwise (a fractional index names an absent property). -/
def arrayGet (catalog : List PartRecord) (index : JSNum) : Option PartRecord :=
  match index with
  | .fin q =>
    if q.den = 1 ∧ 0 ≤ q.num ∧ q.num < (catalog.length : ℤ) then
      catalog.get? q.num.toNat
    else none
  | _ => none

/-- JavaScript addition on numbers. -/
def jsAdd : JSNum → JSNum → JSNum
  | .nan, _ => .nan
  | _, .nan => .nan
  | .inf b, .inf c => if b = c then .inf b else .nan
  | .inf b, .fin _ => .inf b
  | .fin _, .inf c => .inf c
  | .fin p, .fin q => .fin (p + q)

/-- The totals update (source lines 173-178): add the field into the
running total only when it is a number and not `NaN`. -/
def numFieldAdd (total : JSNum) (v : Option JSValue) : JSNum :=
  match v with
  | some (.num n) => if n ≠ .nan then jsAdd total n else total
  | _ => total

/-- The aggregation state of `displayBuild`: the ordered selected records
(the DOM children appended to the parts container), the two running
totals, the `partsFound` flag, and the out-of-range warnings in order
(each carrying the offending index the source interpolates). -/
structure AggResult where
  selected : List PartRecord
  totalEnLoad : JSNum
  totalWeight : JSNum
  partsFound : Bool
  rangeWarnings : List JSNum
deriving DecidableEq, Repr

/-- One iteration of the `buildIndices.forEach` loop (source lines
157-184). -/
def aggStep (catalog : List PartRecord) (acc : AggResult) (index : JSNum) :
    AggResult :=
  if jsGeZero index && jsLtLen index catalog.length then
    match arrayGet catalog index with
    | some part =>
      { selected := acc.selected ++ [part]
        totalEnLoad := numFieldAdd acc.totalEnLoad (getField part "ENLoad")
        totalWeight := numFieldAdd acc.totalWeight (getField part "Weight")
        partsFound := true
        rangeWarnings := acc.rangeWarnings }
    | none => acc
  else { acc with rangeWarnings := acc.rangeWarnings ++ [index] }

/-- The aggregation loop of `displayBuild` (source lines 153-184): fold
the steps over the parsed indices starting from zero totals. -/
def resolveAndAggregate (indices : List JSNum) (catalog : List PartRecord) :
    AggResult :=
  indices.foldl (aggStep catalog) ⟨[], .fin 0, .fin 0, false, []⟩

/-- Negativity of a JavaScript number (`NaN` is not negative). -/
def jsIsNegative : JSNum → Bool
  | .nan => false
  | .inf b => b
  | .fin q => decide (q < 0)

/-- The invariant claimed for numeric fields of parsed records: the stored
value is `undefined` or a non-`NaN` number. -/
def NumericFieldOk (v : JSValue) : Prop :=
  v = .undef ∨ ∃ n, v = .num n ∧ n ≠ JSNum.nan

/-- A record all of whose `ENLoad`/`Weight` properties satisfy
`NumericFieldOk`. -/
def GoodRec (r : PartRecord) : Prop :=
  ∀ k v, (k = "ENLoad" ∨ k = "Weight") → getField r k = some v → NumericFieldOk v

deriving instance DecidableEq for Except

/-! Helper lemmas about object fields. -/

theorem getField_setField_self (r : PartRecord) (k : String) (v : JSValue) :
    getField (setField r k v) k = some v := by
  induction r with
  | nil => simp [setField, getField]
  | cons p t ih =>
    by_cases hp : p.1 = k
    · simp [setField, getField, hp]
    · simp [setField, getField, hp, ih]

theorem getField_setField_ne (r : PartRecord) (k k' : String) (v : JSValue)
    (h : k' ≠ k) : getField (setField r k v) k' = getField r k' := by
  have hk : ¬k = k' := fun hkk => h hkk.symm
  induction r with
  | nil => simp [setField, getField, hk]
  | cons p t ih =>
    by_cases hp : p.1 = k
    · simp [setField, getField, hp, hk]
    · simp [setField, getField, hp, ih]

theorem goodRec_nil : GoodRec [] := by
  intro k v _ hv
  simp [getField] at hv

theorem numericFieldValue_ok (val : String) :
    NumericFieldOk (numericFieldValue val).1 := by
  by_cases h1 : parseFloat val = .nan ∧ val ≠ ""
  · simp [numericFieldValue, NumericFieldOk, h1]
  · by_cases h2 : val = ""
    · simp [numericFieldValue, NumericFieldOk, h1, h2]
    · have hnan : parseFloat val ≠ .nan := fun hn => h1 ⟨hn, h2⟩
      right
      exact ⟨parseFloat val, by simp [numericFieldValue, h1, h2, hnan], hnan⟩

theorem goodRec_setField (r : PartRecord) (k : String) (v : JSValue)
    (hr : GoodRec r) (hv : (k = "ENLoad" ∨ k = "Weight") → NumericFieldOk v) :
    GoodRec (setField r k v) := by
  intro k' v' hk' hget
  by_cases hkk : k' = k
  · subst hkk
    rw [getField_setField_self] at hget
    injection hget with hvv
    subst hvv
    exact hv hk'
  · rw [getField_setField_ne r k k' v hkk] at hget
    exact hr k' v' hk' hget

/-! Helper lemmas about the row loop of the catalog parser. -/

theorem processRowAux_goodRec (values : List String) (vi rn : ℕ) :
    ∀ (hs : List String) (idx : ℕ) (acc : PartRecord × List ParseWarn),
      GoodRec acc.1 → GoodRec (processRowAux values vi rn hs idx acc).1 := by
  intro hs
  induction hs with
  | nil => intro idx acc h; simpa [processRowAux] using h
  | cons header t ih =>
    intro idx acc h
    by_cases hh : header = "ENLoad" ∨ header = "Weight"
    · simp only [processRowAux, hh, if_true]
      exact ih _ _ (goodRec_setField _ _ _ h (fun _ => numericFieldValue_ok _))
    · simp only [processRowAux, hh, if_false]
      exact ih _ _ (goodRec_setField _ _ _ h (fun hk => absurd hk hh))

theorem processRowAux_warn_mono (values : List String) (vi rn : ℕ) :
    ∀ (hs : List String) (idx : ℕ) (acc : PartRecord × List ParseWarn)
      (w : ParseWarn), w ∈ acc.2 → w ∈ (processRowAux values vi rn hs idx acc).2 := by
  intro hs
  induction hs with
  | nil => intro idx acc w h; simpa [processRowAux] using h
  | cons header t ih =>
    intro idx acc w h
    by_cases hh : header = "ENLoad" ∨ header = "Weight"
    · simp only [processRowAux, hh, if_true]
      apply ih
      by_cases hw : (numericFieldValue (values.getD (vi + idx) "")).2 = true
      · simp only [hw, if_true]
        exact List.mem_append_left _ h
      · simp only [hw, if_false]
        exact h
    · simp only [processRowAux, hh, if_false]
      exact ih _ _ _ h

theorem processRowAux_getField_not_mem (values : List String) (vi rn : ℕ) :
    ∀ (hs : List String) (idx : ℕ) (acc : PartRecord × List ParseWarn)
      (k : String), k ∉ hs →
      getField (processRowAux values vi rn hs idx acc).1 k = getField acc.1 k := by
  intro hs
  induction hs with
  | nil => intro idx acc k _; simp [processRowAux]
  | cons header t ih =>
    intro idx acc k hk
    have hne : k ≠ header := fun he => hk (he ▸ List.mem_cons_self header t)
    have hkt : k ∉ t := fun ht => hk (List.mem_cons_of_mem header ht)
    by_cases hh : header = "ENLoad" ∨ header = "Weight"
    · simp only [processRowAux, hh, if_true]
      rw [ih _ _ _ hkt, getField_setField_ne _ _ _ _ hne]
    · simp only [processRowAux, hh, if_false]
      rw [ih _ _ _ hkt, getField_setField_ne _ _ _ _ hne]

theorem processRowAux_append (values : List String) (vi rn : ℕ) :
    ∀ (l1 l2 : List String) (idx : ℕ) (acc : PartRecord × List ParseWarn),
      processRowAux values vi rn (l1 ++ l2) idx acc =
        processRowAux values vi rn l2 (idx + l1.length)
          (processRowAux values vi rn l1 idx acc) := by
  intro l1
  induction l1 with
  | nil => intro l2 idx acc; simp [processRowAux]
  | cons a t ih =>
    intro l2 idx acc
    have harith : idx + (t.length + 1) = idx + 1 + t.length := by omega
    simp only [List.cons_append, processRowAux, List.length_cons, harith]
    exact ih l2 (idx + 1) _

theorem processRows_goodRec (headers : List String) (vi : ℕ) :
    ∀ (lines : List String) (i : ℕ) (p : PartRecord),
      p ∈ (processRows headers vi i lines).1 → GoodRec p := by
  intro lines
  induction lines with
  | nil => intro i p hp; simp [processRows] at hp
  | cons line rest ih =>
    intro i p hp
    by_cases hg : (rowValues line).length < vi + headers.length
    · simp only [processRows, hg, if_true] at hp
      exact ih _ _ hp
    · simp only [processRows, hg, if_false] at hp
      rcases List.mem_cons.1 hp with h | h
      · subst h
        exact processRowAux_goodRec _ _ _ _ _ _ goodRec_nil
      · exact ih _ _ h

/-! Helper lemmas about the Number conversion. -/

theorem dropWhile_eq_self_of_none (p : Char → Bool) (l : List Char)
    (h : ∀ c ∈ l, p c = false) : l.dropWhile p = l := by
  cases l with
  | nil => rfl
  | cons c t =>
    exact List.dropWhile_cons_of_neg (by simp [h c (List.mem_cons_self c t)])

theorem jsTrim_eq_self (cs : List Char)
    (h : ∀ c ∈ cs, isJsWhitespace c = false) : jsTrim cs = cs := by
  unfold jsTrim
  rw [dropWhile_eq_self_of_none _ _ h,
    dropWhile_eq_self_of_none _ _ (fun c hc => h c (List.mem_reverse.1 hc)),
    List.reverse_reverse]

theorem isJsWhitespace_of_isDigit (c : Char) (h : c.isDigit = true) :
    isJsWhitespace c = false := by
  by_contra hw
  rw [Bool.not_eq_false] at hw
  have hm : c ∈ jsWhitespaceChars := by
    simpa [isJsWhitespace] using hw
  simp only [jsWhitespaceChars, List.mem_cons, List.not_mem_nil, or_false] at hm
  rcases hm with rfl | rfl | rfl | rfl | rfl | rfl | rfl | rfl | rfl | rfl <;>
    exact absurd h (by decide)

theorem ne_of_isDigit_ne (c d : Char) (hc : c.isDigit = true)
    (hd : d.isDigit = false) : c ≠ d := by
  intro he
  subst he
  rw [hc] at hd
  cases hd

theorem splitOnChar_not_mem (sep : Char) :
    ∀ (cs piece : List Char), piece ∈ splitOnChar sep cs → sep ∉ piece := by
  intro cs
  induction cs with
  | nil =>
    intro piece hp
    simp only [splitOnChar, List.mem_cons, List.not_mem_nil, or_false] at hp
    subst hp
    simp
  | cons c t ih =>
    intro piece hp
    by_cases h : c = sep
    · simp only [splitOnChar, h, if_true] at hp
      rcases List.mem_cons.1 hp with rfl | hmem
      · simp
      · exact ih piece hmem
    · simp only [splitOnChar, h, if_false] at hp
      cases hsp : splitOnChar sep t with
      | nil =>
        rw [hsp] at hp
        simp only [List.mem_cons, List.not_mem_nil, or_false] at hp
        subst hp
        simp only [List.mem_cons, List.not_mem_nil, or_false]
        intro he
        exact h he.symm
      | cons s ss =>
        rw [hsp] at hp
        rcases List.mem_cons.1 hp with rfl | hmem
        · intro hcontra
          rcases List.mem_cons.1 hcontra with he | hs2
          · exact h he.symm
          · exact ih s (by rw [hsp]; exact List.mem_cons_self s ss) hs2
        · exact ih piece (by rw [hsp]; exact List.mem_cons_of_mem s hmem)

theorem splitOnChar_of_not_mem (sep : Char) :
    ∀ cs : List Char, sep ∉ cs → splitOnChar sep cs = [cs] := by
  intro cs
  induction cs with
  | nil => intro _; rfl
  | cons c t ih =>
    intro h
    have hc : ¬c = sep := fun he => h (by rw [he]; exact List.mem_cons_self _ _)
    have ht : sep ∉ t := fun hm => h (List.mem_cons_of_mem c hm)
    simp [splitOnChar, hc, ih ht]

theorem splitAtExpChar_of_no_exp :
    ∀ cs : List Char, (∀ c ∈ cs, ¬(c = 'e' ∨ c = 'E')) →
      splitAtExpChar cs = (cs, none) := by
  intro cs
  induction cs with
  | nil => intro _; rfl
  | cons c t ih =>
    intro h
    have hc := h c (List.mem_cons_self c t)
    have ht : ∀ x ∈ t, ¬(x = 'e' ∨ x = 'E') :=
      fun x hx => h x (List.mem_cons_of_mem c hx)
    simp [splitAtExpChar, hc, ih ht]

theorem decValue_int (m : ℕ) : decValue m 0 0 = (m : ℚ) := by
  show mkRat ((m * 10 ^ 0 : ℕ) : ℤ) (10 ^ 0) = (m : ℚ)
  norm_num [Rat.mkRat_one]

theorem decValue_nonneg (m k : ℕ) (z : ℤ) : 0 ≤ decValue m k z := by
  unfold decValue
  cases z with
  | ofNat n => exact Rat.mkRat_nonneg (by positivity) _
  | negSucc n => exact Rat.mkRat_nonneg (by positivity) _

theorem jsIsNegative_fin_of_nonneg (q : ℚ) (h : 0 ≤ q) :
    jsIsNegative (.fin q) = false := by
  simp only [jsIsNegative, decide_eq_false_iff_not]
  exact not_lt.2 h

theorem parseDecMantissa_digits (cs : List Char) (hne : cs ≠ [])
    (hd : ∀ c ∈ cs, c.isDigit = true) :
    parseDecMantissa cs = some (digitsToNat cs, 0) := by
  have hdot : '.' ∉ cs :=
    fun hm => absurd (hd '.' hm) (by decide)
  unfold parseDecMantissa
  rw [splitOnChar_of_not_mem '.' cs hdot]
  simp [hne, List.all_eq_true.2 hd]

theorem parseStrUnsignedDecimal_digits (cs : List Char) (hne : cs ≠ [])
    (hd : ∀ c ∈ cs, c.isDigit = true) :
    parseStrUnsignedDecimal cs = some (.fin ((digitsToNat cs : ℚ))) := by
  have hinf : cs ≠ "Infinity".toList := by
    intro he
    have hI : 'I' ∈ cs := by
      rw [he]; decide
    exact absurd (hd 'I' hI) (by decide)
  have hexp : ∀ c ∈ cs, ¬(c = 'e' ∨ c = 'E') := by
    intro c hc hor
    rcases hor with rfl | rfl <;> exact absurd (hd _ hc) (by decide)
  unfold parseStrUnsignedDecimal
  rw [if_neg hinf, splitAtExpChar_of_no_exp cs hexp]
  dsimp only
  rw [parseDecMantissa_digits cs hne hd]
  simp [decValue_int]

theorem isRadixLiteral_digits_none (cs : List Char) (lo hi : Char)
    (dig : Char → Bool) (hlo : lo.isDigit = false) (hhi : hi.isDigit = false)
    (hd : ∀ c ∈ cs, c.isDigit = true) :
    isRadixLiteral cs lo hi dig = none := by
  match cs with
  | [] => rfl
  | [c0] => rfl
  | c0 :: c :: r =>
    have hc : c.isDigit = true := hd c (by simp)
    have h1 : ¬c = lo := ne_of_isDigit_ne c lo hc hlo
    have h2 : ¬c = hi := ne_of_isDigit_ne c hi hc hhi
    simp [isRadixLiteral, h1, h2]

theorem parseSignedDecimal_digits (cs : List Char) (hne : cs ≠ [])
    (hd : ∀ c ∈ cs, c.isDigit = true) :
    parseSignedDecimal cs = .fin ((digitsToNat cs : ℚ)) := by
  match cs with
  | [] => exact absurd rfl hne
  | c :: t =>
    have hc : c.isDigit = true := hd c (List.mem_cons_self c t)
    have hplus : ¬c = '+' := ne_of_isDigit_ne c '+' hc (by decide)
    have hminus : ¬c = '-' := ne_of_isDigit_ne c '-' hc (by decide)
    unfold parseSignedDecimal
    dsimp only
    rw [if_neg hplus, if_neg hminus,
      parseStrUnsignedDecimal_digits (c :: t) hne hd]
    rfl

theorem jsCharsToNumber_digits (cs : List Char) (hne : cs ≠ [])
    (hd : ∀ c ∈ cs, c.isDigit = true) :
    jsCharsToNumber cs = .fin ((digitsToNat cs : ℚ)) := by
  unfold jsCharsToNumber
  rw [jsTrim_eq_self cs (fun c hc => isJsWhitespace_of_isDigit c (hd c hc)),
    if_neg hne]
  unfold parseStrNumericLiteral
  rw [isRadixLiteral_digits_none cs 'x' 'X' isHexDigitB (by decide) (by decide) hd,
    isRadixLiteral_digits_none cs 'o' 'O' isOctDigitB (by decide) (by decide) hd,
    isRadixLiteral_digits_none cs 'b' 'B' isBinDigitB (by decide) (by decide) hd,
    parseSignedDecimal_digits cs hne hd]

theorem parseStrUnsignedDecimal_not_negative (cs : List Char) (n : JSNum)
    (h : parseStrUnsignedDecimal cs = some n) : jsIsNegative n = false := by
  unfold parseStrUnsignedDecimal at h
  by_cases hinf : cs = "Infinity".toList
  · rw [if_pos hinf] at h
    injection h with h
    subst h
    rfl
  · rw [if_neg hinf] at h
    rcases hsp : splitAtExpChar cs with ⟨mcs, e⟩
    rw [hsp] at h
    dsimp only at h
    cases hm : parseDecMantissa mcs with
    | none => rw [hm] at h; cases h
    | some mk =>
      rw [hm] at h
      rcases mk with ⟨m, k⟩
      cases e with
      | none =>
        dsimp only at h
        injection h with h
        subst h
        exact jsIsNegative_fin_of_nonneg _ (decValue_nonneg m k 0)
      | some ecs =>
        dsimp only at h
        cases hz : parseExponent ecs with
        | none => rw [hz] at h; cases h
        | some z =>
          rw [hz] at h
          injection h with h
          subst h
          exact jsIsNegative_fin_of_nonneg _ (decValue_nonneg m k z)

theorem parseSignedDecimal_not_negative (cs : List Char) (hnm : '-' ∉ cs) :
    jsIsNegative (parseSignedDecimal cs) = false := by
  match cs with
  | [] => decide
  | c :: t =>
    have hminus : ¬c = '-' := fun he => hnm (by rw [he]; exact List.mem_cons_self _ _)
    unfold parseSignedDecimal
    dsimp only
    by_cases hplus : c = '+'
    · rw [if_pos hplus]
      cases hr : parseStrUnsignedDecimal t with
      | none => rfl
      | some n =>
        simpa using parseStrUnsignedDecimal_not_negative t n hr
    · rw [if_neg hplus, if_neg hminus]
      cases hr : parseStrUnsignedDecimal (c :: t) with
      | none => rfl
      | some n =>
        simpa using parseStrUnsignedDecimal_not_negative (c :: t) n hr

theorem parseStrNumericLiteral_not_negative (cs : List Char) (hnm : '-' ∉ cs) :
    jsIsNegative (parseStrNumericLiteral cs) = false := by
  unfold parseStrNumericLiteral
  cases hx : isRadixLiteral cs 'x' 'X' isHexDigitB with
  | some ds => exact jsIsNegative_fin_of_nonneg _ (by positivity)
  | none =>
    cases ho : isRadixLiteral cs 'o' 'O' isOctDigitB with
    | some ds => exact jsIsNegative_fin_of_nonneg _ (by positivity)
    | none =>
      cases hb : isRadixLiteral cs 'b' 'B' isBinDigitB with
      | some ds => exact jsIsNegative_fin_of_nonneg _ (by positivity)
      | none => exact parseSignedDecimal_not_negative cs hnm

theorem jsTrim_subset (cs : List Char) (c : Char) (hc : c ∈ jsTrim cs) :
    c ∈ cs := by
  unfold jsTrim at hc
  rw [List.mem_reverse] at hc
  have h1 := (List.dropWhile_sublist _).subset hc
  rw [List.mem_reverse] at h1
  exact (List.dropWhile_sublist _).subset h1

theorem jsCharsToNumber_not_negative (cs : List Char) (hnm : '-' ∉ cs) :
    jsIsNegative (jsCharsToNumber cs) = false := by
  unfold jsCharsToNumber
  by_cases ht : jsTrim cs = []
  · rw [if_pos ht]
    decide
  · rw [if_neg ht]
    exact parseStrNumericLiteral_not_negative (jsTrim cs)
      (fun hm => hnm (jsTrim_subset cs _ hm))

/-! Helper lemmas about the build-parameter parser. -/

theorem segmentsToNumbers_ok (segs : List (List Char))
    (h : ∀ s ∈ segs, jsCharsToNumber s ≠ .nan) :
    segmentsToNumbers segs = .ok (segs.map jsCharsToNumber) := by
  induction segs with
  | nil => rfl
  | cons s t ih =>
    have hs := h s (List.mem_cons_self s t)
    simp only [segmentsToNumbers, hs, if_false]
    rw [ih (fun x hx => h x (List.mem_cons_of_mem s hx))]
    rfl

theorem segmentsToNumbers_mem (segs : List (List Char)) :
    ∀ l : List JSNum, segmentsToNumbers segs = .ok l →
      ∀ n ∈ l, ∃ s ∈ segs, n = jsCharsToNumber s := by
  induction segs with
  | nil =>
    intro l h n hn
    injection h with h
    subst h
    simp at hn
  | cons s t ih =>
    intro l h n hn
    by_cases hs : jsCharsToNumber s = .nan
    · simp only [segmentsToNumbers, hs, if_true] at h
      cases h
    · simp only [segmentsToNumbers, hs, if_false] at h
      cases ht : segmentsToNumbers t with
      | error e => rw [ht] at h; cases h
      | ok lt =>
        rw [ht] at h
        dsimp only [Except.map] at h
        injection h with h
        subst h
        rcases List.mem_cons.1 hn with rfl | hmem
        · exact ⟨s, List.mem_cons_self s t, rfl⟩
        · rcases ih lt ht n hmem with ⟨x, hx, hnx⟩
          exact ⟨x, List.mem_cons_of_mem s hx, hnx⟩

theorem parseBuild_not_negative_aux (bp : Option String) (l : List JSNum)
    (h : parseBuildFromUrl bp = .ok (some l)) :
    ∀ n ∈ l, jsIsNegative n = false := by
  intro n hn
  cases bp with
  | none =>
    injection h with h
    cases h
  | some s =>
    by_cases hs : s = ""
    · simp only [parseBuildFromUrl, hs, if_true] at h
      injection h with h
      cases h
    · simp only [parseBuildFromUrl, hs, if_false] at h
      cases hsegs : segmentsToNumbers (splitOnChar '-' s.toList) with
      | error e => rw [hsegs] at h; cases h
      | ok lt =>
        rw [hsegs] at h
        dsimp only [Except.map] at h
        injection h with h
        injection h with h
        subst h
        rcases segmentsToNumbers_mem _ lt hsegs n hn with ⟨seg, hseg, rfl⟩
        exact jsCharsToNumber_not_negative seg
          (splitOnChar_not_mem '-' s.toList seg hseg)

/-! Claim theorems. -/

/-- C5: parsing the catalog text with header line No.,Name,Kind,ENLoad,Weight
followed (CRLF-separated) by the single data row 1,Leg,Light,10,5 returns
exactly one record with Name Leg, Kind Light, ENLoad 10.0 and Weight 5.0;
the leading No. column is dropped from both the header and the values, and
no warning is emitted. -/
theorem C5_roundtrip_single_row :
    parseDocxPartsData "No.,Name,Kind,ENLoad,Weight\r\n1,Leg,Light,10,5" =
      .ok ([[("Name", JSValue.str "Leg"), ("Kind", JSValue.str "Light"),
             ("ENLoad", JSValue.num (JSNum.fin 10)),
             ("Weight", JSValue.num (JSNum.fin 5))]], []) := by
  decide

/-- C7: on the build parameter 1-x-2 the parser fails with the invalid-index
error naming the offending segment x, and in particular does not return a
(partial) sequence. -/
theorem C7_invalid_segment_error :
    parseBuildFromUrl (some "1-x-2") = .error (.invalidIndex "x") ∧
    ∀ l : Option (List JSNum), parseBuildFromUrl (some "1-x-2") ≠ .ok l := by
  refine ⟨by decide, ?_⟩
  intro l h
  rw [show parseBuildFromUrl (some "1-x-2") = .error (.invalidIndex "x")
    from by decide] at h
  cases h

/-- C8: a build parameter equal to the empty string is falsy, so the parser
returns the absent result exactly as when the parameter is missing; it
raises no error and does not return an empty sequence. -/
theorem C8_empty_param_is_absent :
    parseBuildFromUrl (some "") = .ok none ∧
    parseBuildFromUrl (some "") = parseBuildFromUrl none ∧
    parseBuildFromUrl (some "") ≠ .ok (some []) := by
  refine ⟨by decide, by decide, ?_⟩
  intro h
  rw [show parseBuildFromUrl (some "") = .ok none from by decide] at h
  injection h with h
  cases h

/-- C1 (counterexample): the claim says every ENLoad or Weight field of a
returned record is a finite number or absent; but the field text Infinity
parses (parseFloat) to the infinite value, which is stored as is: it is a
number field that is neither finite nor absent (and also not NaN). -/
theorem C1_counterexample :
    parseDocxPartsData "Name,ENLoad\r\nLeg,Infinity" =
      .ok ([[("Name", JSValue.str "Leg"),
             ("ENLoad", JSValue.num (JSNum.inf false))]], []) ∧
    getField [("Name", JSValue.str "Leg"),
      ("ENLoad", JSValue.num (JSNum.inf false))] "ENLoad" =
      some (JSValue.num (JSNum.inf false)) ∧
    (∀ q : ℚ, JSNum.inf false ≠ JSNum.fin q) ∧ JSNum.inf false ≠ JSNum.nan := by
  refine ⟨by decide, by decide, fun q => ?_, by decide⟩
  intro h
  cases h

/-- C1 (amended): every ENLoad or Weight field of a record returned by
parseDocxPartsData is either absent (undefined) or a non-NaN number (a
finite value, or an infinity when the field text reads as one); no
returned record ever carries NaN in a numeric field. -/
theorem C1_numeric_fields_never_nan (content : String)
    (parts : List PartRecord) (ws : List ParseWarn)
    (h : parseDocxPartsData content = .ok (parts, ws)) (p : PartRecord)
    (hp : p ∈ parts) (k : String) (hk : k = "ENLoad" ∨ k = "Weight")
    (v : JSValue) (hv : getField p k = some v) :
    v = JSValue.undef ∨ ∃ n, v = JSValue.num n ∧ n ≠ JSNum.nan := by
  simp only [parseDocxPartsData] at h
  split at h
  · simp at h
  · split at h
    · simp at h
    · split at h <;> split at h <;>
        first
        | exact Except.noConfusion h
        | (injection h with h2
           have hps := congrArg Prod.fst h2
           dsimp only at hps
           rw [← hps] at hp
           exact processRows_goodRec _ _ _ _ p hp k v hk hv)

/-- C1 (witness): the amended theorem applied to the one-row catalog whose
ENLoad field text is 10. -/
theorem C1_witness :
    parseDocxPartsData "Name,ENLoad\r\nLeg,10" =
      .ok ([[("Name", JSValue.str "Leg"),
             ("ENLoad", JSValue.num (JSNum.fin 10))]], []) ∧
    (JSValue.num (JSNum.fin 10) = JSValue.undef ∨
      ∃ n, JSValue.num (JSNum.fin 10) = JSValue.num n ∧ n ≠ JSNum.nan) :=
  ⟨by decide,
    C1_numeric_fields_never_nan "Name,ENLoad\r\nLeg,10"
      [[("Name", JSValue.str "Leg"), ("ENLoad", JSValue.num (JSNum.fin 10))]] []
      (by decide)
      [("Name", JSValue.str "Leg"), ("ENLoad", JSValue.num (JSNum.fin 10))]
      (by decide) "ENLoad" (Or.inl rfl) (JSValue.num (JSNum.fin 10)) (by decide)⟩

/-- C3 (counterexample): the claim asserts that some URL build parameter
makes the parser return a sequence containing a negative number; this is
impossible, because splitting on the hyphen consumes every minus sign, so
no segment can convert to a negative value. -/
theorem C3_counterexample :
    ¬ ∃ (bp : Option String) (l : List JSNum),
        parseBuildFromUrl bp = .ok (some l) ∧ ∃ n ∈ l, jsIsNegative n = true := by
  rintro ⟨bp, l, h, n, hn, hneg⟩
  rw [parseBuild_not_negative_aux bp l h n hn] at hneg
  cases hneg

/-- C3 (amended): no sequence returned by parseBuildFromUrl ever contains a
negative number (splitting the parameter on the hyphen separator consumes
every minus sign); range validation still happens only at lookup time. -/
theorem C3_no_negative_at_parse (bp : Option String) (l : List JSNum)
    (h : parseBuildFromUrl bp = .ok (some l)) (n : JSNum) (hn : n ∈ l) :
    jsIsNegative n = false :=
  parseBuild_not_negative_aux bp l h n hn

/-- C3 (witness): the amended theorem applied to the parameter 0-1--2, whose
hyphens all act as separators and which parses to nonnegative values. -/
theorem C3_witness :
    parseBuildFromUrl (some "0-1--2") =
      .ok (some [JSNum.fin 0, JSNum.fin 1, JSNum.fin 0, JSNum.fin 2]) ∧
    JSNum.fin 0 ∈ [JSNum.fin 0, JSNum.fin 1, JSNum.fin 0, JSNum.fin 2] ∧
    jsIsNegative (JSNum.fin 0) = false :=
  ⟨by decide, by decide,
    C3_no_negative_at_parse (some "0-1--2")
      [JSNum.fin 0, JSNum.fin 1, JSNum.fin 0, JSNum.fin 2] (by decide)
      (JSNum.fin 0) (by decide)⟩

/-- C2: for a build parameter that is a hyphen-separated string of valid
base-10 integer segments (every segment nonempty and all decimal digits),
parseBuildFromUrl returns a sequence of the same length as the number of
segments whose k-th element is the integer value of the k-th segment. -/
theorem C2_valid_integer_segments (bp : String)
    (hseg : ∀ s ∈ splitOnChar '-' bp.toList,
      s ≠ [] ∧ ∀ c ∈ s, c.isDigit = true) :
    parseBuildFromUrl (some bp) =
      .ok (some ((splitOnChar '-' bp.toList).map
        (fun s => JSNum.fin ((digitsToNat s : ℚ))))) ∧
    ∀ l : List JSNum, parseBuildFromUrl (some bp) = .ok (some l) →
      l.length = (splitOnChar '-' bp.toList).length ∧
      ∀ (k : ℕ) (s : List Char), (splitOnChar '-' bp.toList)[k]? = some s →
        l[k]? = some (JSNum.fin ((digitsToNat s : ℚ))) := by
  have hbp : ¬bp = "" := by
    intro he
    subst he
    have hmem : ([] : List Char) ∈ splitOnChar '-' ("" : String).toList := by
      decide
    exact (hseg [] hmem).1 rfl
  have hnonan : ∀ s ∈ splitOnChar '-' bp.toList, jsCharsToNumber s ≠ .nan := by
    intro s hs
    rw [jsCharsToNumber_digits s (hseg s hs).1 (hseg s hs).2]
    intro hcon
    cases hcon
  have hmain : parseBuildFromUrl (some bp) =
      .ok (some ((splitOnChar '-' bp.toList).map
        (fun s => JSNum.fin ((digitsToNat s : ℚ))))) := by
    unfold parseBuildFromUrl
    dsimp only
    rw [if_neg hbp, segmentsToNumbers_ok _ hnonan,
      List.map_congr_left
        (fun s hs => jsCharsToNumber_digits s (hseg s hs).1 (hseg s hs).2)]
    rfl
  refine ⟨hmain, ?_⟩
  intro l hl
  rw [hmain] at hl
  injection hl with hl
  injection hl with hl
  subst hl
  refine ⟨by simp, ?_⟩
  intro k s hk
  rw [List.getElem?_map, hk]
  rfl

/-- C2 (witness): the theorem applied to the parameter 10-2-007. -/
theorem C2_witness :
    (∀ s ∈ splitOnChar '-' ("10-2-007" : String).toList,
      s ≠ [] ∧ ∀ c ∈ s, c.isDigit = true) ∧
    parseBuildFromUrl (some "10-2-007") =
      .ok (some ((splitOnChar '-' ("10-2-007" : String).toList).map
        (fun s => JSNum.fin ((digitsToNat s : ℚ))))) :=
  ⟨by decide, (C2_valid_integer_segments "10-2-007" (by decide)).1⟩

/-- C9: a build parameter containing an empty segment (from a leading or
trailing hyphen or consecutive hyphens) has that segment converted by
Number to 0, included in the returned sequence at the same position, and
the empty segment raises no error (the nonempty segments being numeric). -/
theorem C9_empty_segment_is_zero (bp : String)
    (hhyph : '-' ∈ bp.toList)
    (hempty : [] ∈ splitOnChar '-' bp.toList)
    (hok : ∀ s ∈ splitOnChar '-' bp.toList, s ≠ [] →
      jsCharsToNumber s ≠ .nan) :
    ∃ l, parseBuildFromUrl (some bp) = .ok (some l) ∧
      l = (splitOnChar '-' bp.toList).map jsCharsToNumber ∧
      ∀ k : ℕ, (splitOnChar '-' bp.toList)[k]? = some [] →
        l[k]? = some (JSNum.fin 0) := by
  have hbp : ¬bp = "" := by
    intro he
    subst he
    exact absurd hhyph (by decide)
  have hnonan : ∀ s ∈ splitOnChar '-' bp.toList, jsCharsToNumber s ≠ .nan := by
    intro s hs
    by_cases hse : s = []
    · subst hse
      intro hcon
      exact absurd hcon (by decide)
    · exact hok s hs hse
  refine ⟨(splitOnChar '-' bp.toList).map jsCharsToNumber, ?_, rfl, ?_⟩
  · unfold parseBuildFromUrl
    dsimp only
    rw [if_neg hbp, segmentsToNumbers_ok _ hnonan]
    rfl
  · intro k hk
    rw [List.getElem?_map, hk]
    rfl

/-- C9 (witness): the theorem applied to the parameter 1--2, whose middle
segment is empty and parses to 0. -/
theorem C9_witness :
    ∃ l, parseBuildFromUrl (some "1--2") = .ok (some l) ∧
      l = (splitOnChar '-' ("1--2" : String).toList).map jsCharsToNumber ∧
      ∀ k : ℕ, (splitOnChar '-' ("1--2" : String).toList)[k]? = some [] →
        l[k]? = some (JSNum.fin 0) :=
  C9_empty_segment_is_zero "1--2" (by decide) (by decide) (by decide)

/-- C10: a fractional (non-integral) index within range passes the range
guard but names an absent array property: the aggregator selects no
record for it, contributes nothing to the totals, emits no out-of-range
warning for it, and does not make partsFound true by itself. -/
theorem C10_fractional_index_noop (q : ℚ) (catalog : List PartRecord)
    (acc : AggResult) (hfrac : q.den ≠ 1) (h0 : 0 ≤ q)
    (hlen : q < (catalog.length : ℚ)) :
    aggStep catalog acc (.fin q) = acc ∧
    resolveAndAggregate [.fin q] catalog =
      { selected := [], totalEnLoad := .fin 0, totalWeight := .fin 0,
        partsFound := false, rangeWarnings := [] } := by
  have hstep : ∀ acc2 : AggResult, aggStep catalog acc2 (.fin q) = acc2 := by
    intro acc2
    have hag : arrayGet catalog (.fin q) = none := by
      unfold arrayGet
      exact if_neg (fun hcon => hfrac hcon.1)
    unfold aggStep
    rw [hag]
    simp [jsGeZero, jsLtLen, h0, hlen]
  refine ⟨hstep acc, ?_⟩
  unfold resolveAndAggregate
  rw [List.foldl_cons, hstep, List.foldl_nil]

/-- C10 (witness): the theorem applied to the index one half over a
two-record catalog. -/
theorem C10_witness :
    aggStep [[], []] ⟨[], .fin 0, .fin 0, false, []⟩ (.fin (mkRat 1 2)) =
      ⟨[], .fin 0, .fin 0, false, []⟩ ∧
    resolveAndAggregate [.fin (mkRat 1 2)] [[], []] =
      { selected := [], totalEnLoad := .fin 0, totalWeight := .fin 0,
        partsFound := false, rangeWarnings := [] } :=
  C10_fractional_index_noop (mkRat 1 2) [[], []]
    ⟨[], .fin 0, .fin 0, false, []⟩ (by decide) (by decide) (by decide)

/-- C4: a data row whose ENLoad (or Weight) field text is a non-empty
string that parseFloat cannot parse is kept, not dropped, and raises no
error: the row loop stores that field as undefined in the resulting
record and emits the numeric-parse warning carrying the offending text
(the field position is the single occurrence of that header). -/
theorem C4_nonnumeric_field_absent_with_warning (pre post : List String)
    (vi i : ℕ) (line : String) (rest : List String) (h : String)
    (hh : h = "ENLoad" ∨ h = "Weight") (hpost : h ∉ post)
    (hguard : vi + (pre ++ h :: post).length ≤ (rowValues line).length)
    (hval : (rowValues line).getD (vi + pre.length) "" ≠ "")
    (hnan : parseFloat ((rowValues line).getD (vi + pre.length) "") =
      JSNum.nan) :
    ∃ (r : PartRecord) (ps : List PartRecord) (ws : List ParseWarn),
      processRows (pre ++ h :: post) vi i (line :: rest) = (r :: ps, ws) ∧
      getField r h = some JSValue.undef ∧
      ParseWarn.badNumber i h ((rowValues line).getD (vi + pre.length) "")
        ∈ ws := by
  have hng : ¬((rowValues line).length < vi + (pre ++ h :: post).length) :=
    not_lt.2 hguard
  have hnv : numericFieldValue ((rowValues line).getD (vi + pre.length) "") =
      (JSValue.undef, true) := by
    have hcond : parseFloat ((rowValues line).getD (vi + pre.length) "") =
        JSNum.nan ∧ (rowValues line).getD (vi + pre.length) "" ≠ "" :=
      ⟨hnan, hval⟩
    unfold numericFieldValue
    dsimp only
    rw [if_pos hcond]
  have hrows : processRows (pre ++ h :: post) vi i (line :: rest) =
      ((processRowAux (rowValues line) vi i (pre ++ h :: post) 0 ([], [])).1 ::
        (processRows (pre ++ h :: post) vi (i + 1) rest).1,
       (processRowAux (rowValues line) vi i (pre ++ h :: post) 0 ([], [])).2 ++
        (processRows (pre ++ h :: post) vi (i + 1) rest).2) := by
    simp only [processRows, hng, if_false]
  have hstep : processRowAux (rowValues line) vi i (pre ++ h :: post) 0
      ([], []) =
      processRowAux (rowValues line) vi i post (0 + pre.length + 1)
        (setField
          (processRowAux (rowValues line) vi i pre 0 ([], [])).1 h
          JSValue.undef,
         (processRowAux (rowValues line) vi i pre 0 ([], [])).2 ++
          [ParseWarn.badNumber i h
            ((rowValues line).getD (vi + pre.length) "")]) := by
    rw [processRowAux_append]
    simp only [processRowAux, hh, if_true, Nat.zero_add, hnv]
  refine ⟨_, _, _, hrows, ?_, ?_⟩
  · rw [hstep, processRowAux_getField_not_mem _ _ _ post _ _ h hpost]
    exact getField_setField_self _ _ _
  · apply List.mem_append_left
    rw [hstep]
    apply processRowAux_warn_mono
    exact List.mem_append_right _ (List.mem_cons_self _ _)

/-- C4 (witness): the theorem applied to the row Leg,N/A under the header
Name,ENLoad: the field text N/A yields an absent ENLoad, a warning, and
the row is kept. -/
theorem C4_witness :
    ∃ (r : PartRecord) (ps : List PartRecord) (ws : List ParseWarn),
      processRows (["Name"] ++ "ENLoad" :: []) 0 1 ["Leg,N/A"] =
        (r :: ps, ws) ∧
      getField r "ENLoad" = some JSValue.undef ∧
      ParseWarn.badNumber 1 "ENLoad"
        ((rowValues "Leg,N/A").getD (0 + ["Name"].length) "") ∈ ws :=
  C4_nonnumeric_field_absent_with_warning ["Name"] [] 0 1 "Leg,N/A" []
    "ENLoad" (Or.inl rfl) (by decide) (by decide) (by decide) (by decide)

/-- C6: aggregating the index sequence [0, 0, 99] over a catalog of exactly
two records whose record 0 carries finite numeric ENLoad and Weight
selects record 0 twice in order, skips index 99 with a warning carrying
that index, adds record 0 stats into the totals twice, and sets
partsFound true. -/
theorem C6_duplicates_and_out_of_range (r0 r1 : PartRecord) (a b : ℚ)
    (hE : getField r0 "ENLoad" = some (JSValue.num (JSNum.fin a)))
    (hW : getField r0 "Weight" = some (JSValue.num (JSNum.fin b))) :
    resolveAndAggregate [JSNum.fin 0, JSNum.fin 0, JSNum.fin 99] [r0, r1] =
      { selected := [r0, r0], totalEnLoad := JSNum.fin (a + a),
        totalWeight := JSNum.fin (b + b), partsFound := true,
        rangeWarnings := [JSNum.fin 99] } := by
  have hcond0 : (0 : ℚ).den = 1 ∧ 0 ≤ (0 : ℚ).num ∧
      (0 : ℚ).num < (([r0, r1] : List PartRecord).length : ℤ) := by
    refine ⟨by decide, by decide, ?_⟩
    show (0 : ℚ).num < (2 : ℤ)
    decide
  have hag0 : arrayGet [r0, r1] (JSNum.fin 0) = some r0 := by
    unfold arrayGet
    dsimp only
    rw [if_pos hcond0]
    rfl
  have hge0 : jsGeZero (JSNum.fin 0) = true := by decide
  have hlt0 : jsLtLen (JSNum.fin 0) 2 = true := by decide
  have hge99 : jsGeZero (JSNum.fin 99) = true := by decide
  have hlt99 : jsLtLen (JSNum.fin 99) 2 = false := by decide
  unfold resolveAndAggregate
  rw [List.foldl_cons, List.foldl_cons, List.foldl_cons, List.foldl_nil]
  simp [aggStep, hge0, hlt0, hge99, hlt99, hag0, hE, hW, numFieldAdd, jsAdd]

/-- C6 (witness): the theorem applied to a concrete two-record catalog whose
record 0 has ENLoad 10 and Weight 5. -/
theorem C6_witness :
    getField [("ENLoad", JSValue.num (JSNum.fin 10)),
      ("Weight", JSValue.num (JSNum.fin 5))] "ENLoad" =
      some (JSValue.num (JSNum.fin 10)) ∧
    resolveAndAggregate [JSNum.fin 0, JSNum.fin 0, JSNum.fin 99]
      [[("ENLoad", JSValue.num (JSNum.fin 10)),
        ("Weight", JSValue.num (JSNum.fin 5))], []] =
      { selected := [[("ENLoad", JSValue.num (JSNum.fin 10)),
                      ("Weight", JSValue.num (JSNum.fin 5))],
                     [("ENLoad", JSValue.num (JSNum.fin 10)),
                      ("Weight", JSValue.num (JSNum.fin 5))]],
        totalEnLoad := JSNum.fin (10 + 10), totalWeight := JSNum.fin (5 + 5),
        partsFound := true, rangeWarnings := [JSNum.fin 99] } :=
  ⟨by decide,
    C6_duplicates_and_out_of_range
      [("ENLoad", JSValue.num (JSNum.fin 10)),
       ("Weight", JSValue.num (JSNum.fin 5))] [] 10 5 (by decide) (by decide)⟩
